import Mathlib

/-!
Verification development for the sbomnix dependency-graph core.

Each section is a shallow embedding of one Python module of the
repository, translated definition by definition from the source:

* `Vers`    — `src/sbomnix/derivation.py` (`category`, `split_components`,
  `components_lt`, `compare_versions`): the nix version ordering.
* `Drv`     — `src/src/sbomnix/derivation.py` (`Derive.__init__`,
  `Derive.init`, `Derive.set_cpe`, `Derive.add_output_path`, `load`).
* `NixStore` — `src/src/sbomnix/nix.py` (`Store._update`, `Store.add_path`,
  `find_deriver`).
* `Graph`   — `src/src/nixgraph/graph.py` (`NixDependencyGraph._graph`,
  `_path_drawn`, `_query`, `_add_node`, `_add_edge`, `NixGraphFilter`,
  `NixDependency`, `NixDependencies._add_dependency`).
* `Sbomdb`  — `src/src/sbomnix/sbomdb.py` (`SbomDb._lookup_dependencies`).

Machine integers do not occur; Python strings are modelled as `String`
compared by code points, Python `dict` as insertion-ordered association
lists, Python exceptions as `Except String`.
-/

namespace Vers

/-- Byte-for-byte port of `category(char)` from `src/sbomnix/derivation.py`:
classify a character as punctuation (0), digit (1) or non-digit (2).
The Python source tests membership in the explicit tuples
`(".", "-")` and `("0", ..., "9")`; `Char.isDigit` is exactly the
second tuple. -/
def category (c : Char) : Nat :=
  if c = '.' ∨ c = '-' then 0
  else if c.isDigit then 1
  else 2

/-- Recursion core of `split_components`.  The Python function scans the
string with an index-based while-loop taking maximal runs of one
category and skipping punctuation runs; here the loop is driven by a
`fuel` counter that starts at the string length.  Each iteration
consumes at least the first character, so the fuel never runs out when
it starts at the length of the list (`splitGo_fuel_irrelevant` below
makes this precise). -/
def splitGo (fuel : Nat) (l : List Char) : List String :=
  match fuel, l with
  | _, [] => []
  | 0, _ => []
  | fuel + 1, c :: rest =>
    let run := rest.takeWhile (fun x => category x = category c)
    let rest1 := rest.dropWhile (fun x => category x = category c)
    if category c = 0 then splitGo fuel rest1
    else String.mk (c :: run) :: splitGo fuel rest1

/-- Port of `split_components(v)`: yield cohesive groups of digits or
non-digits, skipping punctuation. -/
def split_components (v : String) : List String :=
  splitGo v.data.length v.data

/-- Model of Python `int(s)` restricted to the tokens produced by
`split_components`: such a token is either a nonempty run of ASCII
digits (where `int` succeeds) or a run of characters that are not
ASCII digits and not `.`/`-` (where `int` raises `ValueError`), or the
empty fill value of `zip_longest` (where `int` also raises).
`none` models the raised `ValueError`. -/
def parseNum (s : String) : Option Nat :=
  if s ≠ "" ∧ s.data.all Char.isDigit then
    some (s.data.foldl (fun n c => n * 10 + (c.toNat - 48)) 0)
  else none

/-- Kernel-computable code-point comparison of character lists; this is
exactly how Python compares two `str` values with `<`. -/
def charListLt : List Char → List Char → Bool
  | [], [] => false
  | [], _ :: _ => true
  | _ :: _, [] => false
  | a :: as, b :: bs =>
    if a.toNat < b.toNat then true
    else if b.toNat < a.toNat then false
    else charListLt as bs

/-- Python string comparison `left < right` (lexicographic by code point). -/
def strLt (a b : String) : Bool := charListLt a.data b.data

/-- The non-strict order induced by Python string comparison; Python
`sorted` sorts ascending with respect to it. -/
def strLe (a b : String) : Bool := !(strLt b a)

/-- Port of `components_lt(left, right)` from `src/sbomnix/derivation.py`
(itself a port of `nix/src/libexpr/names.cc`).  The sequence of `if`
statements is kept in source order. -/
def components_lt (left right : String) : Bool :=
  let lnum := parseNum left
  let rnum := parseNum right
  match lnum, rnum with
  | some l, some r => l < r
  | _, _ =>
    if left = "" ∧ rnum.isSome then true
    else if left = "pre" ∧ right ≠ "pre" then true
    else if right = "pre" then false
    else if rnum.isSome then true
    else if lnum.isSome then false
    else strLt left right

/-- Loop of `compare_versions`: walk the two token sequences pairwise as
`itertools.zip_longest(..., fillvalue="")` does; the fuel is the number
of produced pairs, `max` of the two lengths. -/
def cmpGo (fuel : Nat) (ls rs : List String) : Int :=
  match fuel with
  | 0 => 0
  | fuel + 1 =>
    match ls, rs with
    | [], [] => 0
    | _, _ =>
      let lc := ls.headD ""
      let rc := rs.headD ""
      if lc = rc then cmpGo fuel ls.tail rs.tail
      else if components_lt lc rc then -1
      else if components_lt rc lc then 1
      else cmpGo fuel ls.tail rs.tail

/-- Port of `compare_versions(left, right)`: compare two versions with
the same logic as `nix-env -u`; -1 when `left` is older, 1 when newer,
0 when equal. -/
def compare_versions (left right : String) : Int :=
  if left = right then 0
  else
    let ls := split_components left
    let rs := split_components right
    cmpGo (max ls.length rs.length) ls rs

end Vers

namespace Drv

/-- Index of the first occurrence of `sep` in a character list, scanning
left to right (the search that backs Python `str.partition` for a
nonempty separator). -/
def findSubIdx (sep : List Char) : List Char → Option Nat
  | [] => if sep.isPrefixOf ([] : List Char) then some 0 else none
  | c :: t =>
    if sep.isPrefixOf (c :: t) then some 0
    else (findSubIdx sep t).map (· + 1)

/-- Python `name.partition(pname)[0]`: the part of `name` before the
first occurrence of `pname`, or all of `name` when `pname` does not
occur.  Python raises `ValueError: empty separator` when the separator
is the empty string; `none` models that exception. -/
def partitionBefore (s sep : String) : Option String :=
  if sep = "" then none
  else
    match findSubIdx sep.data s.data with
    | some i => some (String.mk (s.data.take i))
    | none => some s

/-- The constructor arguments of `Derive.__init__` in
`src/src/sbomnix/derivation.py` that its body reads: the `envVars`
key/value map, the `name` keyword and the `patches` keyword (the
underscore-prefixed positional arguments are ignored by the body).
`structuredName` stands for `destructure(envVars)["name"]`, the
`name` field of the JSON blob under the reserved `__json` key as
decoded by the external `json` library; `none` means that lookup
raises. -/
structure DrvArgs where
  envVars : List (String × String) := []
  name : Option String := none
  patches : Option String := none
  structuredName : Option String := none

/-- The in-memory derivation record built by `Derive.__init__` and
mutated by `Derive.init` / `add_output_path` / `set_cpe`. -/
structure Derive where
  name : String
  pname : String
  version : String
  patches : String
  system : String
  out : String
  outputs : List String
  store_path : Option String
  cpe : String
  purl : String
  urls : String
deriving DecidableEq, Repr

/-- Rendering of `str(PackageURL(type="nix", name=pname, version=version))`.
`PackageURL` belongs to the external `packageurl` library; its exact
percent-encoding is out of scope, but the rendered string is a function
of `(pname, version)` alone, which is all the development relies on. -/
def purl_string (pname version : String) : String :=
  "pkg:nix/" ++ pname ++ "@" ++ version

/-- Name resolution at the top of `Derive.__init__`:
`self.name = name or envVars.get("name")` followed by
`if not self.name: self.name = destructure(envVars)["name"]`.
Python `or` and `not` test string truthiness, so an empty string falls
through to the next source. -/
def resolveName (args : DrvArgs) : Option String :=
  let n0 : Option String :=
    match args.name with
    | some n => if n ≠ "" then some n else args.envVars.lookup "name"
    | none => args.envVars.lookup "name"
  match n0 with
  | some n => if n ≠ "" then some n else args.structuredName
  | none => args.structuredName

/-- Python `envVars.get(key, "")`. -/
def envGetD (ev : List (String × String)) (key : String) : String :=
  (ev.lookup key).getD ""

/-- Port of the body of `Derive.__init__`.  Reads `name` (falling back
to the structured-attributes JSON), reconstructs the full `pname` as
`self.name.partition(pname)[0] + pname`, and computes `cpe`/`purl`:
both start empty and `purl` is only filled in when the reconstructed
`pname` differs from the sentinel `"source"`.  Errors model the
exceptions the Python body can raise. -/
def mkDerive (args : DrvArgs) : Except String Derive :=
  let ev := args.envVars
  match resolveName args with
  | none => .error "KeyError: name"
  | some name =>
    let pname0 := (ev.lookup "pname").getD name
    match partitionBefore name pname0 with
    | none => .error "ValueError: empty separator"
    | some before =>
      let pname := before ++ pname0
      let version := envGetD ev "version"
      let patches :=
        match args.patches with
        | some p => if p ≠ "" then p else envGetD ev "patches"
        | none => envGetD ev "patches"
      let system := envGetD ev "system"
      let out := envGetD ev "out"
      let purl := if pname ≠ "source" then purl_string pname version else ""
      let urls := envGetD ev "urls"
      .ok { name := name, pname := pname, version := version,
            patches := patches, system := system, out := out,
            outputs := [], store_path := none,
            cpe := "", purl := purl, urls := urls }

/-- Python `bisect.insort` on a list of strings ordered by code points:
insert `x` keeping the list sorted, after any existing equal element. -/
def insortStr (x : String) : List String → List String
  | [] => [x]
  | y :: ys => if Vers.strLt x y then x :: y :: ys else y :: insortStr x ys

/-- Port of `Derive.add_output_path(path)`: append `path` to
`self.outputs` (kept sorted by `bisect.insort`) unless it is falsy,
already present, or equal to `self.store_path`. -/
def Derive.add_output_path (d : Derive) (path : String) : Derive :=
  if path ≠ "" ∧ path ∉ d.outputs ∧ some path ≠ d.store_path then
    { d with outputs := insortStr path d.outputs }
  else d

/-- Port of `Derive.init(path, outpath)`: set `store_path` and register
the first output path, falling back to the `out` environment value
when `outpath` is falsy or equal to `path`.  The Python body asserts
`self.store_path is None`; `load` below only calls it on a freshly
constructed record, where the assertion holds. -/
def Derive.init (d : Derive) (path : String) (outpath : String) : Derive :=
  let d1 := { d with store_path := some path }
  let op := if outpath ≠ "" ∧ outpath ≠ path then outpath else d1.out
  d1.add_output_path op

/-- Port of `Derive.set_cpe(cpe_generator)`: generate the cpe identifier
unless the package name is the sentinel `"source"` or no generator is
given.  The generator (class `CPE`, out of scope) is modelled as an
arbitrary function of `(pname, version)`. -/
def Derive.set_cpe (d : Derive) (cpe_generator : Option (String → String → String)) : Derive :=
  if d.pname ≠ "source" then
    match cpe_generator with
    | some g => { d with cpe := g d.pname d.version }
    | none => d
  else d

end Drv

namespace NixStore

/-- The external collaborators queried by `src/src/sbomnix/nix.py`,
modelled as pure functions of the queried path:
`pathExists` is `os.path.exists`;
`derivationShow` is `exec_cmd(["nix", "derivation", "show", path],
raise_on_error=False)` followed by `list(json.loads(stdout).keys())`
(`none` models a failed command, `some keys` the JSON key list);
`qpiDeriver` is `exec_cmd(["nix-store", "-qd", path]).stdout.strip()`;
`readDrv` is the content of the `.drv` file handed to `eval` by
`derivation.load`;
`requisites` is `exec_cmd(["nix-store", "-qR", drv_path]).stdout.splitlines()`. -/
structure StoreEnv where
  pathExists : String → Bool
  derivationShow : String → Option (List String)
  qpiDeriver : String → String
  readDrv : String → Drv.DrvArgs
  requisites : String → List String

/-- Python `s.endswith(post)`: code-point suffix test. -/
def strEndsWith (s post : String) : Bool :=
  post.data.isSuffixOf s.data

/-- Port of `find_deriver(path)` from `src/src/sbomnix/nix.py`: return
the drv path for the given nix store artifact path, reconciling the
`nix derivation show` answer with the `nix-store -qd` answer.
`.ok none` models the Python `return None` branches; `.error` models
the two `raise RuntimeError` branches at the end. -/
def find_deriver (env : StoreEnv) (path : String) : Except String (Option String) :=
  if strEndsWith path ".drv" then .ok (some path)
  else
    match env.derivationShow path with
    | none => .ok none
    | some qvd_json_keys =>
      match qvd_json_keys.head? with
      | none => .ok none
      | some qvd_deriver =>
        if qvd_deriver ≠ "" ∧ env.pathExists qvd_deriver then .ok (some qvd_deriver)
        else
          let qpi_deriver := env.qpiDeriver path
          if qpi_deriver ≠ "" ∧ qpi_deriver ≠ "unknown-deriver" ∧ env.pathExists qpi_deriver then
            .ok (some qpi_deriver)
          else
            let e1 :=
              if qpi_deriver ≠ "" ∧ qpi_deriver ≠ "unknown-deriver" then
                "Deriver " ++ qpi_deriver ++ " does not exist.  "
              else ""
            let e2 :=
              if qvd_deriver ≠ "" ∧ qvd_deriver ≠ qpi_deriver then
                "Deriver " ++ qvd_deriver ++ " does not exist.  "
              else ""
            let error := e1 ++ e2
            if error ≠ "" then
              .error (error ++ "Could not find deriver for path " ++ path)
            else
              .error ("Cannot determine deriver. Is this really a path into the nix store? " ++ path)

/-- Port of `derivation.load(path, outpath)` from
`src/src/sbomnix/derivation.py`: evaluate the `.drv` file into a
`Derive` and call `init(path, outpath)` on it. -/
def load (env : StoreEnv) (path : String) (outpath : String) : Except String Drv.Derive :=
  (Drv.mkDerive (env.readDrv path)).map (fun d => d.init path outpath)

/-- The `Store` of `src/src/sbomnix/nix.py`.  Python `Derive` records
are shared mutable objects cached under several keys at once, so the
model separates an object `heap` from the `derivations` dict, which
maps a store path to either `none` (Python caches the value `None`)
or the heap index of the shared record. -/
structure Store where
  buildtime : Bool
  heap : List Drv.Derive := []
  derivations : List (String × Option Nat) := []
deriving DecidableEq, Repr

/-- Assignment `self.derivations[path] = drv` on an insertion-ordered
dict: replace the value of an existing key, else append. -/
def assocSet (m : List (String × Option Nat)) (k : String) (v : Option Nat) :
    List (String × Option Nat) :=
  match m with
  | [] => [(k, v)]
  | (k1, v1) :: rest => if k1 = k then (k, v) :: rest else (k1, v1) :: assocSet rest k v

/-- Port of `Store._add_cached(path, drv)`. -/
def add_cached (st : Store) (path : String) (drv : Option Nat) : Store :=
  { st with derivations := assocSet st.derivations path drv }

/-- Port of `Store._is_cached(path)`: `path in self.derivations`, true
also when the cached value is `None`. -/
def is_cached (st : Store) (path : String) : Bool :=
  (st.derivations.lookup path).isSome

/-- Port of `Store._get_cached(path)` combined with the truthiness test
`if not drv_obj` applied to its result in `_update`: a key that is
absent and a key cached as `None` both yield `none`. -/
def get_cached (st : Store) (path : String) : Option Nat :=
  (st.derivations.lookup path).getD none

/-- Branch of `Store._update` taken when neither redundancy test fires:
fetch the cached record or load the derivation, then re-home `nixpath`
onto that record.  `npt` is the already-truthiness-filtered `nixpath`.

SOURCE BUG captured faithfully: the body executes
`drv_obj = load(drv_path)`, but `derivation.load(path, outpath)`
declares two required positional arguments, so the call raises
`TypeError` before anything is loaded; the error branch below models
that exception.  The remaining lines translate the rest of the Python
body, reachable only when the record was already cached. -/
def updateLoad (st : Store) (drv_path : String) (npt : Option String) : Except String Store :=
  match get_cached st drv_path with
  | none =>
    .error "TypeError: load() missing 1 required positional argument: outpath"
  | some idx =>
    match st.heap.get? idx with
    | none => .error "model invariant violation: dangling heap index"
    | some drv_obj =>
      if drv_obj.store_path ≠ some drv_path then
        .error ("AssertionError: unexpected drv_path: " ++ drv_path)
      else
        match npt with
        | some np =>
          let st1 := { st with heap := st.heap.set idx (drv_obj.add_output_path np) }
          .ok (add_cached st1 np (some idx))
        | none => .ok st

/-- Port of `Store._update(drv_path, nixpath)`: skip non-derivation
paths (caching `None` for them), skip redundant paths, else load and
re-home as `updateLoad` describes.  Python tests `if nixpath` by
truthiness, so an empty-string `nixpath` behaves like `None`. -/
def update (st : Store) (drv_path : String) (nixpath : Option String) : Except String Store :=
  if ¬ strEndsWith drv_path ".drv" then .ok (add_cached st drv_path none)
  else
    let npt : Option String :=
      match nixpath with
      | some np => if np ≠ "" then some np else none
      | none => none
    match npt with
    | some np =>
      if is_cached st np then .ok st else updateLoad st drv_path (some np)
    | none =>
      if is_cached st drv_path then .ok st else updateLoad st drv_path none

/-- Port of `Store.add_path(nixpath)`: add the derivation referenced by
a store path.  A cached path returns immediately; a path that does not
exist raises `RuntimeError` (the `ArtifactNotFound` of the spec); a
path with no resolvable deriver is recorded as having no derivation;
otherwise the deriver is loaded via `_update`, and in buildtime mode
every requisite of the deriver is updated as well. -/
def add_path (env : StoreEnv) (st : Store) (nixpath : String) : Except String Store :=
  if is_cached st nixpath then .ok st
  else if ¬ env.pathExists nixpath then
    .error ("path " ++ nixpath ++ " does not exist - cannot load derivations referenced from it")
  else
    match find_deriver env nixpath with
    | .error e => .error e
    | .ok none => .ok (add_cached st nixpath none)
    | .ok (some drv_path) =>
      match update st drv_path (some nixpath) with
      | .error e => .error e
      | .ok st1 =>
        if st1.buildtime then
          (env.requisites drv_path).foldlM (fun s c => update s c none) st1
        else .ok st1

end NixStore

namespace Graph

/-- The `NixDependency` dataclass of `src/src/nixgraph/graph.py`: a
dependency edge between two nix packages.  The same four fields are
the columns of the pandas dataframe built from these edges, so the
structure doubles as the row type consumed by `NixDependencyGraph`. -/
structure NixDependency where
  src_path : String
  src_pname : String
  target_path : String
  target_pname : String
deriving DecidableEq, Repr

/-- The `NixGraphFilter` of `src/src/nixgraph/graph.py`: select edges
by exact match on the fields that are not `None`. -/
structure NixGraphFilter where
  src_path : Option String := none
  target_path : Option String := none
deriving DecidableEq, Repr

/-- Evaluation of the pandas query string built by
`NixGraphFilter.get_query_str` on one row: conjunction of equality
tests for the fields that are set. -/
def filter_matches (f : NixGraphFilter) (e : NixDependency) : Bool :=
  (match f.src_path with
   | some s => e.src_path == s
   | none => true)
  &&
  (match f.target_path with
   | some t => e.target_path == t
   | none => true)

/-- The parameters `NixDependencyGraph.draw` stores on `self` before
calling `_graph`: the dependency dataframe, `maxdepth`, whether an
`inverse` regex was given (only its truthiness steers `_graph`),
the compiled `until` regex — modelled as the predicate
`regex_match(until_regex, pname)`, with `fun _ => false` standing for
`until_regex = None` — and `tabular`, which is
`df_out_csv is not None` (csv output or `return_df` requested). -/
structure GraphConfig where
  df : List NixDependency
  maxdepth : Nat
  inverse : Bool
  until_match : String → Bool
  tabular : Bool

/-- The mutable traversal state of `NixDependencyGraph`:
`paths_drawn` is the visited set (Python stores
`hash(f"{target_path}:{src_path}")`; the model stores the formatted
string itself, i.e. it ignores improbable Python hash collisions);
`nodes` and `edges` record the `digraph.node` / `digraph.edge` calls
in order (each emitted edge is ghost-tagged with the depth of the
frame that emitted it); `csv` records the rows concatenated onto
`df_out_csv` together with their `graph_depth` column. -/
structure GraphState where
  paths_drawn : List String := []
  nodes : List (String × String) := []
  edges : List (Nat × NixDependency) := []
  csv : List (Nat × NixDependency) := []
deriving DecidableEq, Repr

/-- The string whose hash `_path_drawn` inserts into `paths_drawn`. -/
def pathKey (row : NixDependency) : String :=
  row.target_path ++ ":" ++ row.src_path

/-- Port of `_query(nixfilter, depth)`: an empty dataframe short-cuts
to an empty result, otherwise filter by the query string. -/
def get_query (cfg : GraphConfig) (f : NixGraphFilter) : List NixDependency :=
  if cfg.df = [] then [] else cfg.df.filter (fun e => filter_matches f e)

/-- Port of `_add_node(path, pname)`: in tabular mode the method
returns immediately; in graph mode it adds a node statement (the
label/colour styling is cosmetic and not modelled). -/
def add_node (cfg : GraphConfig) (st : GraphState) (path pname : String) : GraphState :=
  if cfg.tabular then st
  else { st with nodes := st.nodes ++ [(path, pname)] }

/-- Port of `_add_edge(row)`: in tabular mode the method returns
immediately; in graph mode it adds the edge statement.  The depth of
the emitting frame is recorded as a ghost tag. -/
def add_edge (cfg : GraphConfig) (st : GraphState) (d : Nat) (row : NixDependency) : GraphState :=
  if cfg.tabular then st
  else { st with edges := st.edges ++ [(d, row)] }

/-- The filter for the next query in the graph, from the tail of the
row loop of `_graph`: inverse mode walks on via the target, forward
mode via the source. -/
def next_filter (cfg : GraphConfig) (row : NixDependency) : NixGraphFilter :=
  if cfg.inverse then { src_path := some row.target_path }
  else { target_path := some row.src_path }

/-- One iteration of the `for row in df.itertuples()` loop of `_graph`,
parameterised by `recurse`, the recursive `self._graph` call supplied
by `graphGoF` below.  In source order: skip the row when the `until`
regex matches the target package name; skip it when `_path_drawn`
finds the `(target_path, src_path)` pair already drawn (otherwise
`_path_drawn` records the pair); else add both nodes and the edge and
recurse with the next filter at the same frame depth. -/
def rowStep (cfg : GraphConfig) (recurse : NixGraphFilter → GraphState → GraphState)
    (d : Nat) (st : GraphState) (row : NixDependency) : GraphState :=
  if cfg.until_match row.target_pname then st
  else if pathKey row ∈ st.paths_drawn then st
  else
    let st1 := { st with paths_drawn := pathKey row :: st.paths_drawn }
    let st2 := add_node cfg st1 row.src_path row.src_pname
    let st3 := add_node cfg st2 row.target_path row.target_pname
    let st4 := add_edge cfg st3 d row
    recurse (next_filter cfg row) st4

/-- Port of `NixDependencyGraph._graph(nixfilter, curr_depth)`.  The
frame increments the depth, stops beyond `maxdepth`, queries the
matching rows (the two empty-result branches differ only in logging),
in tabular mode concatenates all matched rows tagged with the current
depth onto the accumulated csv, and then runs the row loop.  Python
recursion is bounded by the `curr_depth > maxdepth` guard; the model
makes the same recursion structural in a `fuel` argument, and
`graphGo_fuel_eq` below shows any fuel of at least
`maxdepth + 1 - curr_depth` gives the behaviour of the source. -/
def graphGoF (cfg : GraphConfig) (fuel : Nat) (f : NixGraphFilter)
    (curr_depth : Nat) (st : GraphState) : GraphState :=
  match fuel with
  | 0 => st
  | fuel + 1 =>
    let d := curr_depth + 1
    if d > cfg.maxdepth then st
    else
      let rows := get_query cfg f
      if rows = [] then st
      else
        let st1 :=
          if cfg.tabular then { st with csv := st.csv ++ rows.map (fun r => (d, r)) }
          else st
        rows.foldl (rowStep cfg (fun f2 s2 => graphGoF cfg fuel f2 d s2) d) st1

/-- The state at the start of `draw`: empty visited set and empty
graphviz body / csv accumulator. -/
def initState : GraphState := {}

/-- A full traversal as `draw` starts it: `_graph(nixfilter)` with
`curr_depth = 0` on a fresh state, with enough fuel for the depth
guard to be the binding bound. -/
def runGraph (cfg : GraphConfig) (f : NixGraphFilter) : GraphState :=
  graphGoF cfg (cfg.maxdepth + 1) f 0 initState

/-- The captured groups of the dependency-line regex of
`NixDependencies._parse_nix_query_out`. -/
structure DepMatch where
  src_hash : String
  src_pname : String
  target_hash : String
  target_pname : String
deriving DecidableEq, Repr

/-- The edge object `_add_dependency` constructs from one regex match:
paths are rebuilt as `{nix_store_path}{hash}-{pname}`. -/
def edgeOfMatch (nix_store_path : String) (m : DepMatch) : NixDependency :=
  { src_path := nix_store_path ++ m.src_hash ++ "-" ++ m.src_pname,
    src_pname := m.src_pname,
    target_path := nix_store_path ++ m.target_hash ++ "-" ++ m.target_pname,
    target_pname := m.target_pname }

/-- The state of a `NixDependencies` instance: the nix store path
parsed at construction and the `dependencies` collection.
`self.dependencies` is a Python `set`, but `NixDependency` is declared
`@dataclass(eq=False)`, so its elements hash and compare by object
identity; every `_add_dependency` call constructs a fresh object,
which is therefore never equal to any element already present, and
`set.add` always inserts.  The collection is hence a multiset of edge
values, modelled as a list to which insertion appends. -/
structure NixDependencies where
  nix_store_path : String
  dependencies : List NixDependency := []
deriving DecidableEq, Repr

/-- Port of `NixDependencies._add_dependency(dep_match)`: build the
edge from the match groups and insert it (see `NixDependencies` for
why insertion never collapses value-equal edges). -/
def add_dependency (st : NixDependencies) (m : DepMatch) : NixDependencies :=
  { st with dependencies := st.dependencies ++ [edgeOfMatch st.nix_store_path m] }

end Graph

namespace Sbomdb

/-- One row of `self.df_sbomdb` as `SbomDb._lookup_dependencies` reads
it: the component's `store_path`, its multi-valued `outputs` column,
and the value of the caller-requested identifier column `uid` for this
row (`store_path` by default; `_lookup_dependencies` only ever reads
that one column out of the joins, so the row carries it directly). -/
structure SbomRow where
  store_path : String
  outputs : List String
  uid : String
deriving DecidableEq, Repr

/-- `self.df_sbomdb_outputs_exploded`: `df_sbomdb.explode("outputs")`,
one row per output path.  A component with an empty `outputs` list
explodes in pandas to a single NaN-valued row, which can never equal a
string `src_path` in the inner join below, so the model drops it. -/
def explode_outputs (rows : List SbomRow) : List (SbomRow × String) :=
  rows.flatMap (fun c => c.outputs.map (fun o => (c, o)))

/-- Python `sorted(series.unique().tolist())`: the ascending sorted
list of the distinct values, under Python string comparison. -/
def sorted_unique (l : List String) : List String :=
  (l.dedup).mergeSort (fun a b => Vers.strLe a b)

/-- Port of `SbomDb._lookup_dependencies(drv, uid)`:
runtime dependencies are rows of the exploded component table whose
output equals the `src_path` of an edge targeting one of `drv`'s
outputs; buildtime dependencies are components whose `store_path`
equals the `src_path` of an edge targeting `drv.store_path`; the two
are concatenated, reduced to sorted unique `uid` values, and `drv`'s
own uid is filtered out.  `none` models the Python `return None` when
`df_deps` is `None` or empty (then `dfr` and `dfb` both stay `None`). -/
def lookup_dependencies (sbomdb : List SbomRow) (df_deps : List Graph.NixDependency)
    (drv : SbomRow) : Option (List String) :=
  if df_deps = [] then none
  else
    let dfR := df_deps.filter (fun e => e.target_path ∈ drv.outputs)
    let dfr := (explode_outputs sbomdb).flatMap
      (fun co => (dfR.filter (fun e => e.src_path == co.2)).map (fun _ => co.1.uid))
    let dfB := df_deps.filter (fun e => e.target_path == drv.store_path)
    let dfb := sbomdb.flatMap
      (fun c => (dfB.filter (fun e => e.src_path == c.store_path)).map (fun _ => c.uid))
    let dep_uids := sorted_unique (dfr ++ dfb)
    some (dep_uids.filter (fun u => u ≠ drv.uid))

end Sbomdb

namespace Graph

/-- The `(targetPath, srcPath)` keys of the edges emitted so far, in
emission order. -/
def edgeKeys (st : GraphState) : List String :=
  st.edges.map (fun e => pathKey e.2)

/-- Traversal invariant: every emitted edge has its path pair in the
visited set, and no path pair has been emitted twice. -/
def Inv (st : GraphState) : Prop :=
  (∀ e ∈ st.edges, pathKey e.2 ∈ st.paths_drawn) ∧ (edgeKeys st).Nodup

/-- How one traversal step may transform the state: the visited set
only grows, the emitted edges and csv rows are append-only with every
appended entry tagged by a frame depth within `maxdepth`, and the
traversal invariant is preserved. -/
def Pres (cfg : GraphConfig) (st st2 : GraphState) : Prop :=
  (∀ k ∈ st.paths_drawn, k ∈ st2.paths_drawn)
  ∧ (∃ l, st2.edges = st.edges ++ l ∧ ∀ e ∈ l, e.1 ≤ cfg.maxdepth)
  ∧ (∃ l, st2.csv = st.csv ++ l ∧ ∀ r ∈ l, r.1 ≤ cfg.maxdepth)
  ∧ (Inv st → Inv st2)

end Graph

namespace Inputs

open Graph Drv NixStore Sbomdb

/-- Edge whose target package name is matched by the stop regex of
`untilCfg`. -/
def e0 : NixDependency :=
  { src_path := "/n/b-src", src_pname := "b", target_path := "/n/a-tgt", target_pname := "a" }

/-- Graph-mode configuration whose `until` regex matches package `a`. -/
def untilCfg : GraphConfig :=
  { df := [e0], maxdepth := 5, inverse := false,
    until_match := fun s => s == "a", tabular := false }

/-- The filter selecting edges into `/n/a-tgt`. -/
def f0 : NixGraphFilter := { target_path := some "/n/a-tgt" }

/-- Same data and stop regex as `untilCfg`, but in tabular-export mode
(csv output requested). -/
def tabularCfg : GraphConfig :=
  { df := [e0], maxdepth := 5, inverse := false,
    until_match := fun s => s == "a", tabular := true }

/-- Diamond edge set: `A` depends on `B` and `C`, which both depend on
`D` (rows read "target depends on src"). -/
def eAB : NixDependency :=
  { src_path := "/n/B", src_pname := "B", target_path := "/n/A", target_pname := "A" }

/-- Second top edge of the diamond. -/
def eAC : NixDependency :=
  { src_path := "/n/C", src_pname := "C", target_path := "/n/A", target_pname := "A" }

/-- Left bottom edge of the diamond. -/
def eBD : NixDependency :=
  { src_path := "/n/D", src_pname := "D", target_path := "/n/B", target_pname := "B" }

/-- Right bottom edge of the diamond. -/
def eCD : NixDependency :=
  { src_path := "/n/D", src_pname := "D", target_path := "/n/C", target_pname := "C" }

/-- Graph-mode configuration over the diamond with no stop regex. -/
def diamondCfg : GraphConfig :=
  { df := [eAB, eAC, eBD, eCD], maxdepth := 10, inverse := false,
    until_match := fun _ => false, tabular := false }

/-- The filter that starts the diamond traversal at `A`. -/
def fA : NixGraphFilter := { target_path := some "/n/A" }

/-- A state in which the path pair of `eAB` has already been drawn. -/
def drawnState : GraphState := { paths_drawn := [pathKey eAB] }

/-- One concrete dependency-line match. -/
def m0 : DepMatch :=
  { src_hash := "aaaaaaaa", src_pname := "bash-5.1",
    target_hash := "bbbbbbbb", target_pname := "hello-2.12" }

/-- A fresh `NixDependencies` collection. -/
def ndeps0 : NixDependencies := { nix_store_path := "/nix/store/" }

/-- The collection after adding `m0` once. -/
def ndeps1 : NixDependencies := add_dependency ndeps0 m0

/-- The collection after adding the identical match a second time. -/
def ndeps2 : NixDependencies := add_dependency ndeps1 m0

/-- Store environment in which `/n/p` exists but deriver resolution
fails: `nix derivation show` names a deriver that does not exist and
`nix-store -qd` answers `unknown-deriver`. -/
def badDeriverEnv : StoreEnv :=
  { pathExists := fun p => p == "/n/p",
    derivationShow := fun p => if p == "/n/p" then some ["/n/d.drv"] else none,
    qpiDeriver := fun _ => "unknown-deriver",
    readDrv := fun _ => {},
    requisites := fun _ => [] }

/-- Store environment in which the output path `/n/o2` exists and
resolves to the existing deriver `/n/p.drv`, whose `.drv` file names
primary output `/n/o1`. -/
def rehomeEnv : StoreEnv :=
  { pathExists := fun p => p == "/n/o2" || p == "/n/p.drv",
    derivationShow := fun p => if p == "/n/o2" then some ["/n/p.drv"] else none,
    qpiDeriver := fun _ => "",
    readDrv := fun _ =>
      { envVars := [("name", "hello"), ("out", "/n/o1")], name := some "hello" },
    requisites := fun _ => [] }

/-- Store environment in which `/n/q` exists but `nix derivation show`
fails, so no deriver is resolved. -/
def noDeriverEnv : StoreEnv :=
  { pathExists := fun p => p == "/n/q",
    derivationShow := fun _ => none,
    qpiDeriver := fun _ => "",
    readDrv := fun _ => {},
    requisites := fun _ => [] }

/-- A fresh runtime-mode store. -/
def freshStore : Store := { buildtime := false }

/-- A store in which `/n/c` is already cached (with no derivation). -/
def cachedStore : Store :=
  { buildtime := false, derivations := [("/n/c", none)] }

/-- Component rows for the `_lookup_dependencies` sample. -/
def cHello : SbomRow :=
  { store_path := "/n/hello.drv", outputs := ["/n/hello-out"], uid := "/n/hello.drv" }

/-- Runtime dependency component of the sample. -/
def cLibc : SbomRow :=
  { store_path := "/n/libc.drv", outputs := ["/n/libc-out"], uid := "/n/libc.drv" }

/-- Buildtime dependency component of the sample. -/
def cGcc : SbomRow :=
  { store_path := "/n/gcc.drv", outputs := ["/n/gcc-out"], uid := "/n/gcc.drv" }

/-- Edge list of the sample: a runtime edge onto hello's output, a
buildtime edge onto hello's drv, and a redundant self edge. -/
def sampleDeps : List NixDependency :=
  [{ src_path := "/n/libc-out", src_pname := "libc",
     target_path := "/n/hello-out", target_pname := "hello" },
   { src_path := "/n/gcc.drv", src_pname := "gcc",
     target_path := "/n/hello.drv", target_pname := "hello" },
   { src_path := "/n/hello.drv", src_pname := "hello",
     target_path := "/n/hello.drv", target_pname := "hello" }]

/-- Constructor arguments of a fetched-source derivation (the sentinel
package name). -/
def sourceArgs : DrvArgs :=
  { envVars := [("pname", "source"), ("version", "1.2")], name := some "source" }

/-- The record `Derive.__init__` builds from `sourceArgs`. -/
def sourceDrv : Derive :=
  { name := "source", pname := "source", version := "1.2",
    patches := "", system := "", out := "", outputs := [],
    store_path := none, cpe := "", purl := "", urls := "" }

/-- A sample cpe generator. -/
def sampleGen : Option (String → String → String) :=
  some (fun p v => "cpe:2.3:a:" ++ p ++ ":" ++ v)

/-- Constructor arguments whose raw `pname` is a proper substring of
`name` (the interpreter-prefixed example from the source comment). -/
def perlArgs : DrvArgs :=
  { envVars := [("pname", "Authen-SASL"), ("version", "2.1600")],
    name := some "perl5.36.0-Authen-SASL-2.1600" }

/-- Constructor arguments carrying an empty raw `pname`, on which
`name.partition(pname)` raises `ValueError`. -/
def emptyPnameArgs : DrvArgs :=
  { envVars := [("pname", "")], name := some "abc" }

end Inputs

open Vers Drv NixStore Graph Sbomdb Inputs

deriving instance DecidableEq for Except

/-- The fuel driving `splitGo` is immaterial as long as it is at least
the length of the list; in particular `split_components` computes the
Python loop, whose progress is bounded by the string length. -/
theorem splitGo_fuel_irrelevant :
    ∀ (fuel1 fuel2 : Nat) (l : List Char), l.length ≤ fuel1 → l.length ≤ fuel2 →
      splitGo fuel1 l = splitGo fuel2 l := by
  intro fuel1
  induction fuel1 with
  | zero =>
    intro fuel2 l h1 _
    have hl : l = [] := List.eq_nil_of_length_eq_zero (Nat.le_zero.mp h1)
    subst hl
    cases fuel2 <;> rfl
  | succ fuel ih =>
    intro fuel2 l h1 h2
    cases l with
    | nil => cases fuel2 <;> rfl
    | cons c rest =>
      cases fuel2 with
      | zero => exact absurd h2 (by simp)
      | succ fuel2 =>
        have hd : (rest.dropWhile (fun x => category x = category c)).length ≤ rest.length :=
          (rest.dropWhile_sublist _).length_le
        have hr1 : (rest.dropWhile (fun x => category x = category c)).length ≤ fuel := by
          simp at h1; omega
        have hr2 : (rest.dropWhile (fun x => category x = category c)).length ≤ fuel2 := by
          simp at h2; omega
        simp only [splitGo]
        rw [ih fuel2 _ hr1 hr2]

/-- C1, counterexample.  The spec's sample
`compareVersions("1.0-rc1", "1.0") == -1` does not hold of the code:
`components_lt` gives the `"pre"` special treatment only to the exact
token `"pre"`, so the `"rc"` token of `"1.0-rc1"` compares as an
ordinary string against the empty fill token and `"1.0-rc1"` is
considered newer, giving 1, not -1. -/
theorem c1_rc1_counterexample :
    Vers.compare_versions "1.0-rc1" "1.0" = 1 ∧
      ¬ Vers.compare_versions "1.0-rc1" "1.0" = -1 := by
  constructor
  · decide
  · decide

/-- C1, amended.  `compare_versions` is reflexively 0 for every string,
and on the fixed samples `compare_versions("1.0", "1.0pre1") = 1` and
`compare_versions("2.3.4", "2.3.10") = -1` as the spec states, while
`compare_versions("1.0-rc1", "1.0") = 1` (the code, following
`nix-env -u` semantics, treats only the literal token `"pre"` as a
pre-release marker, so `-rc1` sorts above the release). -/
theorem c1_version_order_samples :
    (∀ v, Vers.compare_versions v v = 0)
    ∧ Vers.compare_versions "1.0" "1.0pre1" = 1
    ∧ Vers.compare_versions "2.3.4" "2.3.10" = -1
    ∧ Vers.compare_versions "1.0-rc1" "1.0" = 1 := by
  refine ⟨fun v => ?_, by decide, by decide, by decide⟩
  simp [Vers.compare_versions]

/-- C3, counterexample.  `NixDependency` is declared
`@dataclass(eq=False)`, so the `dependencies` set hashes and compares
its elements by object identity, and `_add_dependency` always inserts
the fresh edge object it builds: after two `_add_dependency` calls
with the same regex match, the collection holds two edges with the
same `(srcPath, srcName, targetPath, targetName)` tuple, and the
second identical add did not leave the collection unchanged. -/
theorem c3_identity_set_counterexample :
    ndeps2.dependencies =
      [edgeOfMatch "/nix/store/" m0, edgeOfMatch "/nix/store/" m0]
    ∧ ¬ ndeps2.dependencies.Pairwise (fun a b => a ≠ b)
    ∧ ¬ add_dependency ndeps1 m0 = ndeps1 := by
  refine ⟨rfl, by decide, by decide⟩

/-- C3, amended.  The parsed dependency collection is an
identity-keyed set: `_add_dependency` always appends the freshly
constructed edge, so an add whose edge value is already present still
grows the collection, and value-equal duplicates accumulate (the count
of the added edge value always goes up by one). -/
theorem c3_add_dependency_appends :
    ∀ (st : Graph.NixDependencies) (m : DepMatch),
      (add_dependency st m).dependencies
        = st.dependencies ++ [edgeOfMatch st.nix_store_path m]
      ∧ (add_dependency st m).dependencies.length = st.dependencies.length + 1
      ∧ (add_dependency st m).dependencies.count (edgeOfMatch st.nix_store_path m)
        = st.dependencies.count (edgeOfMatch st.nix_store_path m) + 1 := by
  intro st m
  refine ⟨rfl, by simp [add_dependency], ?_⟩
  simp [add_dependency]

/-- C4, counterexample.  `add_path` can raise even though the given
store path exists: with `badDeriverEnv` the path `/n/p` exists, but
`find_deriver` reconciles a `nix derivation show` candidate that does
not exist with a `nix-store -qd` answer of `unknown-deriver` and
raises `RuntimeError`, which `add_path` propagates — so "raises iff
the path does not exist" fails in the right-to-left direction. -/
theorem c4_raises_on_existing_path :
    badDeriverEnv.pathExists "/n/p" = true
    ∧ add_path badDeriverEnv freshStore "/n/p"
      = .error "Deriver /n/d.drv does not exist.  Could not find deriver for path /n/p" := by
  exact ⟨rfl, by decide⟩

/-- Looking up the key just assigned by `assocSet` yields the assigned
value (dict assignment semantics). -/
theorem assocSet_lookup_self :
    ∀ (m : List (String × Option Nat)) (k : String) (v : Option Nat),
      (assocSet m k v).lookup k = some v := by
  intro m k v
  induction m with
  | nil => simp [assocSet]
  | cons kv rest ih =>
    by_cases h : kv.1 = k
    · simp [assocSet, h]
    · have hbeq : (k == kv.1) = false := by
        rw [beq_eq_false_iff_ne]
        exact fun hh => h hh.symm
      simp [assocSet, h, List.lookup, hbeq, ih]

/-- C4, amended.  For a path that is not yet cached, `add_path` raises
`ArtifactNotFound` whenever the path does not exist; when the path
exists and the deriver query cleanly reports no deriver, it returns
normally and records the path as having no derivation (so closure
building can continue); when deriver resolution itself raises, that
error propagates even though the path exists.  A path that is already
cached returns normally with the store unchanged, without any
existence check. -/
theorem c4_add_path_error_semantics :
    (∀ (env : StoreEnv) (st : Store) (p : String),
      is_cached st p = true → add_path env st p = .ok st)
    ∧ (∀ (env : StoreEnv) (st : Store) (p : String),
      is_cached st p = false → env.pathExists p = false →
        add_path env st p
          = .error ("path " ++ p ++ " does not exist - cannot load derivations referenced from it"))
    ∧ (∀ (env : StoreEnv) (st : Store) (p : String),
      is_cached st p = false → env.pathExists p = true →
        find_deriver env p = .ok none →
          add_path env st p = .ok (add_cached st p none)
          ∧ get_cached (add_cached st p none) p = none
          ∧ is_cached (add_cached st p none) p = true)
    ∧ (∀ (env : StoreEnv) (st : Store) (p : String) (e : String),
      is_cached st p = false → env.pathExists p = true →
        find_deriver env p = .error e → add_path env st p = .error e) := by
  refine ⟨?_, ?_, ?_, ?_⟩
  · intro env st p h
    simp [add_path, h]
  · intro env st p h hex
    simp [add_path, h, hex]
  · intro env st p h hex hfd
    refine ⟨by simp [add_path, h, hex, hfd], ?_, ?_⟩
    · show ((assocSet st.derivations p none).lookup p).getD none = none
      rw [assocSet_lookup_self]
      rfl
    · show ((assocSet st.derivations p none).lookup p).isSome = true
      rw [assocSet_lookup_self]
      rfl
  · intro env st p e h hex hfd
    simp [add_path, h, hex, hfd]

/-- C4, witness: the four cases of the amended statement evaluated on
concrete environments — a cached path, a missing path, a path whose
deriver query cleanly fails, and a path whose deriver resolution
raises. -/
theorem c4_add_path_error_semantics_witness :
    add_path badDeriverEnv cachedStore "/n/c" = .ok cachedStore
    ∧ add_path badDeriverEnv freshStore "/n/x"
      = .error "path /n/x does not exist - cannot load derivations referenced from it"
    ∧ add_path noDeriverEnv freshStore "/n/q" = .ok (add_cached freshStore "/n/q" none)
    ∧ add_path badDeriverEnv freshStore "/n/p"
      = .error "Deriver /n/d.drv does not exist.  Could not find deriver for path /n/p" := by
  refine ⟨?_, ?_, ?_, ?_⟩
  · exact c4_add_path_error_semantics.1 badDeriverEnv cachedStore "/n/c" (by decide)
  · exact c4_add_path_error_semantics.2.1 badDeriverEnv freshStore "/n/x" (by decide) (by decide)
  · exact (c4_add_path_error_semantics.2.2.1 noDeriverEnv freshStore "/n/q"
      (by decide) rfl (by decide)).1
  · exact c4_add_path_error_semantics.2.2.2 badDeriverEnv freshStore "/n/p" _
      (by decide) rfl (by decide)

/-- C5, the code bug at the failing input.  Re-homing can never happen:
`Store._update` executes `drv_obj = load(drv_path)`, but
`sbomnix.derivation.load(path, outpath)` takes two required positional
arguments, so the very first discovery of a derivation raises
`TypeError` instead of creating its record.  Concretely, in
`rehomeEnv` the output path `/n/o2` exists and its deriver resolves to
the existing `/n/p.drv`, yet `add_path` fails with the `TypeError`
instead of returning a store holding a record for `/n/p.drv` — so no
run can ever end up with one record carrying both output paths. -/
theorem c5_rehoming_update_raises_typeerror :
    rehomeEnv.pathExists "/n/o2" = true
    ∧ find_deriver rehomeEnv "/n/o2" = .ok (some "/n/p.drv")
    ∧ add_path rehomeEnv freshStore "/n/o2"
      = .error "TypeError: load() missing 1 required positional argument: outpath" := by
  refine ⟨rfl, by decide, by decide⟩

/-- The fuel driving `graphGoF` is immaterial as long as it is at
least `maxdepth + 1 - curr_depth`: the recursion of the source is
bounded by the depth guard alone, and `runGraph` supplies enough
fuel. -/
theorem graphGo_fuel_eq :
    ∀ (fuel1 fuel2 : Nat) (cfg : GraphConfig) (f : NixGraphFilter) (c : Nat) (st : GraphState),
      cfg.maxdepth + 1 - c ≤ fuel1 → cfg.maxdepth + 1 - c ≤ fuel2 →
      graphGoF cfg fuel1 f c st = graphGoF cfg fuel2 f c st := by
  intro fuel1
  induction fuel1 with
  | zero =>
    intro fuel2 cfg f c st h1 _
    have hc : cfg.maxdepth < c + 1 := by omega
    cases fuel2 with
    | zero => rfl
    | succ fuel2 => simp only [graphGoF]; rw [if_pos hc]
  | succ fuel1 ih =>
    intro fuel2 cfg f c st h1 h2
    cases fuel2 with
    | zero =>
      have hc : cfg.maxdepth < c + 1 := by omega
      simp only [graphGoF]; rw [if_pos hc]
    | succ fuel2 =>
      simp only [graphGoF]
      by_cases hc : c + 1 > cfg.maxdepth
      · rw [if_pos hc, if_pos hc]
      · rw [if_neg hc, if_neg hc]
        have hrec : (fun f2 s2 => graphGoF cfg fuel1 f2 (c + 1) s2)
            = (fun f2 s2 => graphGoF cfg fuel2 f2 (c + 1) s2) := by
          funext f2 s2
          exact ih fuel2 cfg f2 (c + 1) s2 (by omega) (by omega)
        rw [hrec]

/-- `Pres` is reflexive. -/
theorem pres_refl (cfg : GraphConfig) (st : GraphState) : Pres cfg st st := by
  refine ⟨fun k hk => hk, ⟨[], by simp⟩, ⟨[], by simp⟩, fun h => h⟩

/-- `Pres` is transitive. -/
theorem pres_trans {cfg : GraphConfig} {a b c : GraphState}
    (h1 : Pres cfg a b) (h2 : Pres cfg b c) : Pres cfg a c := by
  obtain ⟨hd1, ⟨l1, he1, hb1⟩, ⟨m1, hc1, hm1⟩, hi1⟩ := h1
  obtain ⟨hd2, ⟨l2, he2, hb2⟩, ⟨m2, hc2, hm2⟩, hi2⟩ := h2
  refine ⟨fun k hk => hd2 k (hd1 k hk), ⟨l1 ++ l2, ?_, ?_⟩, ⟨m1 ++ m2, ?_, ?_⟩, fun h => hi2 (hi1 h)⟩
  · rw [he2, he1, List.append_assoc]
  · intro e he
    rcases List.mem_append.mp he with h | h
    · exact hb1 e h
    · exact hb2 e h
  · rw [hc2, hc1, List.append_assoc]
  · intro r hr
    rcases List.mem_append.mp hr with h | h
    · exact hm1 r h
    · exact hm2 r h

/-- One row-loop iteration satisfies `Pres` whenever the frame depth
respects `maxdepth` and the recursive call does. -/
theorem rowStep_pres {cfg : GraphConfig} {recurse : NixGraphFilter → GraphState → GraphState}
    {d : Nat} (hd : d ≤ cfg.maxdepth)
    (hrec : ∀ f s, Pres cfg s (recurse f s)) :
    ∀ (st : GraphState) (row : NixDependency), Pres cfg st (rowStep cfg recurse d st row) := by
  intro st row
  by_cases hu : cfg.until_match row.target_pname
  · simp only [rowStep, hu, if_true]
    exact pres_refl cfg st
  · by_cases hp : pathKey row ∈ st.paths_drawn
    · have hstep : rowStep cfg recurse d st row = st := by
        simp only [rowStep]
        rw [if_neg hu, if_pos hp]
      rw [hstep]
      exact pres_refl cfg st
    · have hstep : rowStep cfg recurse d st row
          = recurse (next_filter cfg row)
              (add_edge cfg (add_node cfg (add_node cfg
                { st with paths_drawn := pathKey row :: st.paths_drawn }
                row.src_path row.src_pname) row.target_path row.target_pname) d row) := by
        simp only [rowStep]
        rw [if_neg hu, if_neg hp]
      rw [hstep]
      refine pres_trans ?_ (hrec _ _)
      by_cases ht : cfg.tabular
      · -- tabular mode: nodes and edges are untouched, only the visited set grows
        simp only [add_node, add_edge, ht, if_true]
        refine ⟨fun k hk => List.mem_cons_of_mem _ hk, ⟨[], by simp⟩, ⟨[], by simp⟩, ?_⟩
        rintro ⟨hmem, hnd⟩
        exact ⟨fun e he => List.mem_cons_of_mem _ (hmem e he), hnd⟩
      · -- graph mode: the edge is emitted with tag `d` and its key recorded
        simp only [add_node, add_edge, ht, if_false, Bool.false_eq_true]
        refine ⟨fun k hk => List.mem_cons_of_mem _ hk,
          ⟨[(d, row)], by simp, by simpa using hd⟩, ⟨[], by simp⟩, ?_⟩
        rintro ⟨hmem, hnd⟩
        constructor
        · intro e he
          rcases List.mem_append.mp he with h | h
          · exact List.mem_cons_of_mem _ (hmem e h)
          · simp at h
            subst h
            exact List.mem_cons_self _ _
        · simp only [edgeKeys, List.map_append, List.map_cons, List.map_nil] at hnd ⊢
          rw [List.nodup_append]
          refine ⟨hnd, by simp, ?_⟩
          intro k hk hk2
          simp only [List.mem_map] at hk
          obtain ⟨e, he, hke⟩ := hk
          simp only [List.mem_singleton] at hk2
          apply hp
          rw [← hk2, ← hke]
          exact hmem e he

/-- Skipping one row: when the `until` regex matches the row's target
package name, the row-loop iteration changes nothing and does not
recurse. -/
theorem rowStep_until_skip :
    ∀ (cfg : GraphConfig) (recurse : NixGraphFilter → GraphState → GraphState)
      (d : Nat) (st : GraphState) (row : NixDependency) (rest : List NixDependency),
      cfg.until_match row.target_pname = true →
      List.foldl (rowStep cfg recurse d) st (row :: rest)
        = List.foldl (rowStep cfg recurse d) st rest := by
  intro cfg recurse d st row rest hu
  have hstep : rowStep cfg recurse d st row = st := by
    simp only [rowStep]
    rw [if_pos hu]
  simp only [List.foldl_cons, hstep]

/-- Skipping one row: when the row's path pair is already in the
visited set (and the `until` regex does not match first), the row-loop
iteration changes nothing and does not recurse. -/
theorem rowStep_drawn_skip :
    ∀ (cfg : GraphConfig) (recurse : NixGraphFilter → GraphState → GraphState)
      (d : Nat) (st : GraphState) (row : NixDependency) (rest : List NixDependency),
      cfg.until_match row.target_pname = false →
      pathKey row ∈ st.paths_drawn →
      List.foldl (rowStep cfg recurse d) st (row :: rest)
        = List.foldl (rowStep cfg recurse d) st rest := by
  intro cfg recurse d st row rest hu hp
  have hstep : rowStep cfg recurse d st row = st := by
    simp only [rowStep]
    rw [if_neg (by simp [hu]), if_pos hp]
  simp only [List.foldl_cons, hstep]

/-- A fold of `Pres`-preserving steps preserves `Pres`. -/
theorem foldl_pres {cfg : GraphConfig} {step : GraphState → NixDependency → GraphState}
    (hstep : ∀ st row, Pres cfg st (step st row)) :
    ∀ (rows : List NixDependency) (st : GraphState), Pres cfg st (List.foldl step st rows) := by
  intro rows
  induction rows with
  | nil => intro st; exact pres_refl cfg st
  | cons row rest ih =>
    intro st
    simp only [List.foldl_cons]
    exact pres_trans (hstep st row) (ih (step st row))

/-- `_graph` satisfies `Pres`: the visited set only grows, emissions
are append-only with frame depths bounded by `maxdepth`, and the
traversal invariant is preserved. -/
theorem graphGo_pres (cfg : GraphConfig) :
    ∀ (fuel : Nat) (f : NixGraphFilter) (c : Nat) (st : GraphState),
      Pres cfg st (graphGoF cfg fuel f c st) := by
  intro fuel
  induction fuel with
  | zero => intro f c st; exact pres_refl cfg st
  | succ fuel ih =>
    intro f c st
    simp only [graphGoF]
    by_cases hc : c + 1 > cfg.maxdepth
    · rw [if_pos hc]; exact pres_refl cfg st
    · rw [if_neg hc]
      by_cases hq : get_query cfg f = []
      · rw [if_pos hq]; exact pres_refl cfg st
      · rw [if_neg hq]
        have hd : c + 1 ≤ cfg.maxdepth := by omega
        have hfold : ∀ st1, Pres cfg st1
            (List.foldl (rowStep cfg (fun f2 s2 => graphGoF cfg fuel f2 (c + 1) s2) (c + 1))
              st1 (get_query cfg f)) :=
          fun st1 => foldl_pres (rowStep_pres hd (fun f2 s2 => ih f2 (c + 1) s2)) _ st1
        by_cases ht : cfg.tabular
        · rw [if_pos ht]
          refine pres_trans ?_ (hfold _)
          refine ⟨fun k hk => hk, ⟨[], by simp⟩,
            ⟨(get_query cfg f).map (fun r => (c + 1, r)), by simp, ?_⟩, fun h => h⟩
          intro r hr
          simp only [List.mem_map] at hr
          obtain ⟨e, _, hre⟩ := hr
          subst hre
          simpa using hd
        · rw [if_neg ht]
          exact hfold st

/-- C2, counterexample.  A matched edge whose target package name
matches the `until` regex is NOT emitted in graph mode: with
`untilCfg` the query at the start filter matches exactly `e0`, the
stop regex matches its target package name, and the traversal emits
neither its nodes nor the edge (the `continue` in `_graph` fires
before `_add_node`/`_add_edge`). -/
theorem c2_until_graph_counterexample :
    get_query untilCfg f0 = [e0]
    ∧ untilCfg.until_match e0.target_pname = true
    ∧ untilCfg.tabular = false
    ∧ (runGraph untilCfg f0).edges = []
    ∧ (runGraph untilCfg f0).nodes = [] := by
  refine ⟨by decide, by decide, rfl, by decide, by decide⟩

/-- C2, amended.  When the target package name of a matched edge
matches the caller-supplied `until` regex, the traversal does not
recurse past that edge and — in graph mode — does not emit it either
(the row-loop iteration is a no-op); in tabular-export mode the edge
is still recorded, because every frame appends all matched rows,
tagged with the current depth, to the accumulated csv before the
per-row filtering runs. -/
theorem c2_until_stop_behaviour :
    (∀ (cfg : GraphConfig) (recurse : NixGraphFilter → GraphState → GraphState)
      (d : Nat) (st : GraphState) (row : NixDependency) (rest : List NixDependency),
      cfg.until_match row.target_pname = true →
      List.foldl (rowStep cfg recurse d) st (row :: rest)
        = List.foldl (rowStep cfg recurse d) st rest)
    ∧ (∀ (cfg : GraphConfig) (fuel : Nat) (f : NixGraphFilter) (c : Nat) (st : GraphState),
      cfg.tabular = true → c + 1 ≤ cfg.maxdepth → ¬ get_query cfg f = [] →
      ∃ l, (graphGoF cfg (fuel + 1) f c st).csv
        = st.csv ++ (get_query cfg f).map (fun r => (c + 1, r)) ++ l) := by
  constructor
  · exact rowStep_until_skip
  · intro cfg fuel f c st ht hc hq
    simp only [graphGoF]
    rw [if_neg (by omega), if_neg hq, if_pos ht]
    obtain ⟨-, -, ⟨l, hcsv, -⟩, -⟩ :=
      foldl_pres (rowStep_pres hc (fun f2 s2 => graphGo_pres cfg fuel f2 (c + 1) s2))
        (get_query cfg f)
        { st with csv := st.csv ++ (get_query cfg f).map (fun r => (c + 1, r)) }
    exact ⟨l, by rw [hcsv]⟩

/-- C2, witness: the until-skip applied to the concrete edge `e0`, and
the tabular recording applied to `tabularCfg`, where the until-matched
row still lands in the csv accumulator. -/
theorem c2_until_stop_behaviour_witness :
    (List.foldl (rowStep untilCfg (fun _ s => s) 1) initState [e0]
      = List.foldl (rowStep untilCfg (fun _ s => s) 1) initState [])
    ∧ (∃ l, (graphGoF tabularCfg 6 f0 0 initState).csv
        = initState.csv ++ (get_query tabularCfg f0).map (fun r => (1, r)) ++ l) := by
  constructor
  · exact c2_until_stop_behaviour.1 untilCfg (fun _ s => s) 1 initState e0 [] (by decide)
  · exact c2_until_stop_behaviour.2 tabularCfg 5 f0 0 initState rfl (by decide) (by decide)

/-- C6.  Within one traversal each `(targetPath, srcPath)` pair is
drawn at most once (the emitted edge list never repeats a path pair),
a later encounter of an already-drawn pair is skipped entirely, and on
the diamond `A→B, A→C, B→D, C→D` the traversal from `A` draws the
distinct pairs `(B,D)` and `(C,D)` once each — the full emission is
exactly the four edges, so no pair (in particular none of the two
pairs into `D`) is ever drawn a second time. -/
theorem c6_pair_drawn_once :
    (∀ (cfg : GraphConfig) (fuel : Nat) (f : NixGraphFilter),
      (edgeKeys (graphGoF cfg fuel f 0 initState)).Nodup)
    ∧ (∀ (cfg : GraphConfig) (recurse : NixGraphFilter → GraphState → GraphState)
        (d : Nat) (st : GraphState) (row : NixDependency) (rest : List NixDependency),
      cfg.until_match row.target_pname = false →
      pathKey row ∈ st.paths_drawn →
      List.foldl (rowStep cfg recurse d) st (row :: rest)
        = List.foldl (rowStep cfg recurse d) st rest)
    ∧ (runGraph diamondCfg fA).edges = [(1, eAB), (2, eBD), (1, eAC), (2, eCD)]
    ∧ (edgeKeys (runGraph diamondCfg fA)).Nodup := by
  refine ⟨?_, rowStep_drawn_skip, by decide, by decide⟩
  intro cfg fuel f
  obtain ⟨-, -, -, hinv⟩ := graphGo_pres cfg fuel f 0 initState
  exact (hinv ⟨by simp [initState], by simp [initState, edgeKeys]⟩).2

/-- C6, witness: the no-duplicates property evaluated on the diamond
run, and the skip of an already-drawn pair applied to the concrete
state `drawnState`. -/
theorem c6_pair_drawn_once_witness :
    (edgeKeys (graphGoF diamondCfg 11 fA 0 initState)).Nodup
    ∧ (List.foldl (rowStep diamondCfg (fun _ s => s) 1) drawnState [eAB]
      = List.foldl (rowStep diamondCfg (fun _ s => s) 1) drawnState []) := by
  constructor
  · exact c6_pair_drawn_once.1 diamondCfg 11 fA
  · exact c6_pair_drawn_once.2.1 diamondCfg (fun _ s => s) 1 drawnState eAB []
      (by decide) (by decide)

/-- C7.  Depth bound of the traversal: a frame entered at depth
`maxdepth + 1` (that is, `_graph` called with `curr_depth = maxdepth`)
returns the state unchanged, emitting nothing and recursing nowhere;
and in a traversal from the initial filter every emitted edge and
every recorded csv row carries a frame depth of at most `maxdepth`,
i.e. nothing is emitted whose discovery took more than `maxdepth`
recursive expansions. -/
theorem c7_depth_bound :
    (∀ (cfg : GraphConfig) (fuel : Nat) (f : NixGraphFilter) (st : GraphState),
      graphGoF cfg fuel f cfg.maxdepth st = st)
    ∧ (∀ (cfg : GraphConfig) (fuel : Nat) (f : NixGraphFilter),
      ∀ e ∈ (graphGoF cfg fuel f 0 initState).edges, e.1 ≤ cfg.maxdepth)
    ∧ (∀ (cfg : GraphConfig) (fuel : Nat) (f : NixGraphFilter),
      ∀ r ∈ (graphGoF cfg fuel f 0 initState).csv, r.1 ≤ cfg.maxdepth) := by
  refine ⟨?_, ?_, ?_⟩
  · intro cfg fuel f st
    cases fuel with
    | zero => rfl
    | succ fuel =>
      simp only [graphGoF]
      rw [if_pos (by omega)]
  · intro cfg fuel f e he
    obtain ⟨-, ⟨l, hedg, hl⟩, -, -⟩ := graphGo_pres cfg fuel f 0 initState
    rw [hedg] at he
    rcases List.mem_append.mp he with h | h
    · exact absurd h (by simp [initState])
    · exact hl e h
  · intro cfg fuel f r hr
    obtain ⟨-, -, ⟨l, hcsv, hl⟩, -⟩ := graphGo_pres cfg fuel f 0 initState
    rw [hcsv] at hr
    rcases List.mem_append.mp hr with h | h
    · exact absurd h (by simp [initState])
    · exact hl r h

/-- Unfolding of the Python string comparison on nonempty lists. -/
theorem charListLt_cons_iff (a b : Char) (as bs : List Char) :
    charListLt (a :: as) (b :: bs) = true ↔
      a.toNat < b.toNat ∨ (a.toNat = b.toNat ∧ charListLt as bs = true) := by
  simp only [charListLt]
  by_cases h1 : a.toNat < b.toNat
  · rw [if_pos h1]
    simp [h1]
  · rw [if_neg h1]
    by_cases h2 : b.toNat < a.toNat
    · rw [if_pos h2]
      simp only [Bool.false_eq_true, false_iff]
      rintro (h | ⟨he, -⟩) <;> omega
    · rw [if_neg h2]
      have he : a.toNat = b.toNat := by omega
      simp [he]

/-- Python string comparison is irreflexive. -/
theorem charListLt_irrefl : ∀ as, charListLt as as = false := by
  intro as
  induction as with
  | nil => rfl
  | cons a t ih =>
    simp only [charListLt]
    rw [if_neg (by omega), if_neg (by omega)]
    exact ih

/-- Python string comparison is transitive. -/
theorem charListLt_trans :
    ∀ as bs cs, charListLt as bs = true → charListLt bs cs = true →
      charListLt as cs = true := by
  intro as
  induction as with
  | nil =>
    intro bs cs h1 h2
    cases bs with
    | nil => exact absurd h1 (by simp [charListLt])
    | cons b bt =>
      cases cs with
      | nil => exact absurd h2 (by simp [charListLt])
      | cons c ct => simp [charListLt]
  | cons a at1 ih =>
    intro bs cs h1 h2
    cases bs with
    | nil => exact absurd h1 (by simp [charListLt])
    | cons b bt =>
      cases cs with
      | nil => exact absurd h2 (by simp [charListLt])
      | cons c ct =>
        rw [charListLt_cons_iff] at h1 h2 ⊢
        rcases h1 with h1 | ⟨h1e, h1r⟩ <;> rcases h2 with h2 | ⟨h2e, h2r⟩
        · left; omega
        · left; omega
        · left; omega
        · exact Or.inr ⟨by omega, ih bt ct h1r h2r⟩

/-- Python string comparison is trichotomous. -/
theorem charListLt_tri :
    ∀ as bs, charListLt as bs = true ∨ as = bs ∨ charListLt bs as = true := by
  intro as
  induction as with
  | nil =>
    intro bs
    cases bs with
    | nil => exact Or.inr (Or.inl rfl)
    | cons b bt => exact Or.inl (by simp [charListLt])
  | cons a at1 ih =>
    intro bs
    cases bs with
    | nil => exact Or.inr (Or.inr (by simp [charListLt]))
    | cons b bt =>
      by_cases h1 : a.toNat < b.toNat
      · exact Or.inl ((charListLt_cons_iff a b at1 bt).mpr (Or.inl h1))
      · by_cases h2 : b.toNat < a.toNat
        · exact Or.inr (Or.inr ((charListLt_cons_iff b a bt at1).mpr (Or.inl h2)))
        · have he : a = b := by
            have hval : a.toNat = b.toNat := by omega
            exact Char.ext (UInt32.ext hval)
          subst he
          rcases ih bt with h | h | h
          · exact Or.inl ((charListLt_cons_iff a a at1 bt).mpr (Or.inr ⟨rfl, h⟩))
          · exact Or.inr (Or.inl (by rw [h]))
          · exact Or.inr (Or.inr ((charListLt_cons_iff a a bt at1).mpr (Or.inr ⟨rfl, h⟩)))

/-- The non-strict Python string order is transitive. -/
theorem strLe_trans :
    ∀ a b c, strLe a b = true → strLe b c = true → strLe a c = true := by
  intro a b c hab hbc
  simp only [strLe, strLt, Bool.not_eq_true', Bool.not_eq_true] at hab hbc ⊢
  by_contra hca
  have hca2 : charListLt c.data a.data = true := by
    cases h : charListLt c.data a.data
    · exact absurd h hca
    · rfl
  rcases charListLt_tri a.data b.data with h | h | h
  · have h3 : charListLt c.data b.data = true := charListLt_trans _ _ _ hca2 h
    rw [h3] at hbc
    cases hbc
  · rw [h] at hca2
    rw [hca2] at hbc
    cases hbc
  · rw [h] at hab
    cases hab

/-- The non-strict Python string order is total. -/
theorem strLe_total : ∀ a b, (strLe a b || strLe b a) = true := by
  intro a b
  simp only [strLe, strLt]
  cases h : charListLt b.data a.data
  · simp
  · cases h2 : charListLt a.data b.data
    · simp
    · have h3 := charListLt_trans _ _ _ h h2
      rw [charListLt_irrefl] at h3
      cases h3

/-- C8.  For every component, `_lookup_dependencies` (whenever the
dependency dataframe is nonempty) returns a sorted, duplicate-free
list of dependency `uid` values that never contains the component's
own uid, and whose members are exactly the union of the runtime
contribution (components one of whose outputs is the `src_path` of an
edge targeting one of `drv`'s outputs, via the exploded outputs table)
and the buildtime contribution (components whose `store_path` is the
`src_path` of an edge targeting `drv.store_path`), minus `drv`
itself.  Sortedness is with respect to the Python string order
`strLe`. -/
theorem c8_lookup_dependencies :
    ∀ (sbomdb : List SbomRow) (deps : List Graph.NixDependency) (drv : SbomRow),
      ¬ deps = [] →
      ∃ l, lookup_dependencies sbomdb deps drv = some l
        ∧ List.Pairwise (fun a b => strLe a b = true) l
        ∧ l.Nodup
        ∧ drv.uid ∉ l
        ∧ (∀ x, x ∈ l ↔ x ≠ drv.uid ∧
            ((∃ c ∈ sbomdb, ∃ o ∈ c.outputs, ∃ e ∈ deps,
                e.target_path ∈ drv.outputs ∧ e.src_path = o ∧ x = c.uid)
             ∨ (∃ c ∈ sbomdb, ∃ e ∈ deps,
                e.target_path = drv.store_path ∧ e.src_path = c.store_path ∧ x = c.uid))) := by
  intro sbomdb deps drv hne
  simp only [lookup_dependencies, if_neg hne]
  refine ⟨_, rfl, ?_, ?_, ?_, ?_⟩
  · exact (List.sorted_mergeSort strLe_trans strLe_total _).filter _
  · exact (((List.mergeSort_perm _ _).symm.nodup (List.nodup_dedup _)).filter _)
  · simp [List.mem_filter]
  · intro x
    rw [List.mem_filter]
    simp only [sorted_unique, List.mem_mergeSort, List.mem_dedup, List.mem_append,
      explode_outputs, List.mem_flatMap, List.mem_map, List.mem_filter,
      decide_eq_true_eq, beq_iff_eq]
    constructor
    · rintro ⟨hmem, hx⟩
      refine ⟨by simpa using hx, ?_⟩
      rcases hmem with h | h
      · left
        obtain ⟨⟨c, o⟩, ⟨c2, hc2, o2, ho2, hpair⟩, e, ⟨⟨he1, he2⟩, ht⟩, hxu⟩ := h
        injection hpair with hc ho
        subst hc
        subst ho
        exact ⟨c2, hc2, o2, ho2, e, he1, he2, ht, hxu.symm⟩
      · right
        obtain ⟨c, hc, e, ⟨⟨he, ht⟩, hs⟩, hxu⟩ := h
        exact ⟨c, hc, e, he, ht, hs, hxu.symm⟩
    · rintro ⟨hx, h | h⟩
      · obtain ⟨c, hc, o, ho, e, he, ht, hs, hxu⟩ := h
        exact ⟨Or.inl ⟨(c, o), ⟨c, hc, o, ho, rfl⟩, e, ⟨⟨he, ht⟩, hs⟩, hxu.symm⟩, hx⟩
      · obtain ⟨c, hc, e, he, ht, hs, hxu⟩ := h
        exact ⟨Or.inr ⟨c, hc, e, ⟨⟨he, ht⟩, hs⟩, hxu.symm⟩, hx⟩

/-- C8, witness: the characterisation evaluated on the three-component
sample, where hello has libc as runtime dependency, gcc as buildtime
dependency, and a redundant self edge that must be filtered out. -/
theorem c8_lookup_dependencies_witness :
    ∃ l, lookup_dependencies [cHello, cLibc, cGcc] sampleDeps cHello = some l
      ∧ List.Pairwise (fun a b => strLe a b = true) l
      ∧ l.Nodup
      ∧ cHello.uid ∉ l
      ∧ (∀ x, x ∈ l ↔ x ≠ cHello.uid ∧
          ((∃ c ∈ [cHello, cLibc, cGcc], ∃ o ∈ c.outputs, ∃ e ∈ sampleDeps,
              e.target_path ∈ cHello.outputs ∧ e.src_path = o ∧ x = c.uid)
           ∨ (∃ c ∈ [cHello, cLibc, cGcc], ∃ e ∈ sampleDeps,
              e.target_path = cHello.store_path ∧ e.src_path = c.store_path ∧ x = c.uid))) := by
  exact c8_lookup_dependencies [cHello, cLibc, cGcc] sampleDeps cHello (by decide)

/-- `set_cpe` is the identity on the sentinel package name. -/
theorem set_cpe_source (d : Drv.Derive) (gen : Option (String → String → String))
    (h : d.pname = "source") : d.set_cpe gen = d := by
  simp [Drv.Derive.set_cpe, h]

/-- `set_cpe` never touches `purl`, `pname` or `version`. -/
theorem set_cpe_keeps_identity (d : Drv.Derive) (gen : Option (String → String → String)) :
    (d.set_cpe gen).purl = d.purl ∧ (d.set_cpe gen).pname = d.pname
    ∧ (d.set_cpe gen).version = d.version := by
  simp only [Drv.Derive.set_cpe]
  split
  · cases gen <;> simp
  · simp

/-- Every record `Derive.__init__` returns has an empty `cpe` and a
`purl` that is empty exactly for the sentinel `"source"` package name
and otherwise the rendering of `(pname, version)`. -/
theorem mkDerive_ok_identity :
    ∀ (args : DrvArgs) (d : Drv.Derive), mkDerive args = .ok d →
      d.cpe = ""
      ∧ d.purl = (if d.pname ≠ "source" then purl_string d.pname d.version else "") := by
  intro args d h
  simp only [mkDerive] at h
  split at h
  · cases h
  · split at h
    · cases h
    · injection h with hd
      subst hd
      exact ⟨rfl, rfl⟩

/-- C9.  After parsing, every derivation record has an empty `cpe`; a
record whose reconstructed package name is the sentinel `"source"` has
an empty `purl` and keeps both identity fields empty across
`set_cpe` (which is the identity on such records); for every other
package name the `purl` is exactly the deterministic rendering of
`(pname, version)`, before and after `set_cpe`. -/
theorem c9_source_identity_unset :
    ∀ (args : DrvArgs) (d : Drv.Derive) (gen : Option (String → String → String)),
      mkDerive args = .ok d →
      d.cpe = ""
      ∧ (d.pname = "source" →
          d.purl = "" ∧ d.set_cpe gen = d
          ∧ (d.set_cpe gen).cpe = "" ∧ (d.set_cpe gen).purl = "")
      ∧ (d.pname ≠ "source" →
          d.purl = purl_string d.pname d.version
          ∧ (d.set_cpe gen).purl = purl_string d.pname d.version) := by
  intro args d gen h
  obtain ⟨hcpe, hpurl⟩ := mkDerive_ok_identity args d h
  refine ⟨hcpe, ?_, ?_⟩
  · intro hsrc
    have hp : d.purl = "" := by rw [hpurl, hsrc]; simp
    have hid : d.set_cpe gen = d := set_cpe_source d gen hsrc
    exact ⟨hp, hid, by rw [hid, hcpe], by rw [hid, hp]⟩
  · intro hsrc
    have hp : d.purl = purl_string d.pname d.version := by rw [hpurl, if_pos hsrc]
    exact ⟨hp, by rw [(set_cpe_keeps_identity d gen).1, hp]⟩

/-- C9, witness: the sentinel case evaluated on `sourceArgs` and the
ordinary case on `perlArgs`. -/
theorem c9_source_identity_unset_witness :
    (sourceDrv.cpe = ""
      ∧ (sourceDrv.pname = "source" →
          sourceDrv.purl = "" ∧ sourceDrv.set_cpe sampleGen = sourceDrv
          ∧ (sourceDrv.set_cpe sampleGen).cpe = ""
          ∧ (sourceDrv.set_cpe sampleGen).purl = "")
      ∧ (sourceDrv.pname ≠ "source" →
          sourceDrv.purl = purl_string sourceDrv.pname sourceDrv.version
          ∧ (sourceDrv.set_cpe sampleGen).purl
            = purl_string sourceDrv.pname sourceDrv.version)) := by
  exact c9_source_identity_unset sourceArgs sourceDrv sampleGen (by decide)

/-- C10, counterexample.  The reconstruction
`self.name.partition(pname)[0] + pname` is not total: when the raw
`pname` read from `envVars` is the empty string, Python
`str.partition` raises `ValueError: empty separator` inside
`Derive.__init__`, so no parsed pname exists at all — refuting "the
parsed pname always equals the prefix of name before the first
occurrence of the raw pname concatenated with the raw pname". -/
theorem c10_empty_pname_counterexample :
    mkDerive emptyPnameArgs = .error "ValueError: empty separator" := by
  decide

/-- C10, amended.  Whenever the raw `pname` read from `envVars` is a
nonempty string (so that `str.partition` is defined), the parsed pname
equals the prefix of `name` before the first occurrence of the raw
pname concatenated with the raw pname; in particular, when the raw
pname does not occur in `name` the parsed pname is `name ++ pname`,
and when `name` starts with the raw pname the parsed pname is the raw
pname unchanged. -/
theorem c10_pname_reconstruction :
    ∀ (args : DrvArgs) (n p : String),
      args.name = some n → ¬ n = "" →
      args.envVars.lookup "pname" = some p → ¬ p = "" →
      ∃ d, mkDerive args = .ok d
        ∧ d.pname = (partitionBefore n p).getD "" ++ p
        ∧ (findSubIdx p.data n.data = none → d.pname = n ++ p)
        ∧ (p.data.isPrefixOf n.data = true → d.pname = p) := by
  intro args n p hname hn hlook hp
  have hres : resolveName args = some n := by
    simp [resolveName, hname, hn]
  have hpb : partitionBefore n p
      = some (match findSubIdx p.data n.data with
              | some i => String.mk (n.data.take i)
              | none => n) := by
    simp only [partitionBefore, if_neg hp]
    cases hfi : findSubIdx p.data n.data <;> simp
  have hex : ∃ d, mkDerive args = .ok d
      ∧ d.pname = (match findSubIdx p.data n.data with
                   | some i => String.mk (n.data.take i)
                   | none => n) ++ p := by
    simp only [mkDerive, hres, hlook, Option.getD_some, hpb]
    exact ⟨_, rfl, rfl⟩
  obtain ⟨d, hmk, hpn⟩ := hex
  refine ⟨d, hmk, ?_, ?_, ?_⟩
  · rw [hpn, hpb, Option.getD_some]
  · intro hnone
    rw [hpn, hnone]
  · intro hpref
    have hzero : findSubIdx p.data n.data = some 0 := by
      cases hd : n.data with
      | nil =>
        exfalso
        apply hn
        cases n
        simp_all
      | cons c t =>
        rw [hd] at hpref
        simp only [findSubIdx, hpref, if_true]
    rw [hpn, hzero]
    simp only [List.take_zero]
    rfl

/-- C10, witness: the interpreter-prefixed reconstruction on
`perlArgs`, on which the raw `Authen-SASL` occurs inside the full
name and the parsed pname gains the `perl5.36.0-` prefix. -/
theorem c10_pname_reconstruction_witness :
    ∃ d, mkDerive perlArgs = .ok d
      ∧ d.pname = (partitionBefore "perl5.36.0-Authen-SASL-2.1600" "Authen-SASL").getD ""
          ++ "Authen-SASL"
      ∧ (findSubIdx "Authen-SASL".data "perl5.36.0-Authen-SASL-2.1600".data = none →
          d.pname = "perl5.36.0-Authen-SASL-2.1600" ++ "Authen-SASL")
      ∧ ("Authen-SASL".data.isPrefixOf "perl5.36.0-Authen-SASL-2.1600".data = true →
          d.pname = "Authen-SASL") := by
  exact c10_pname_reconstruction perlArgs "perl5.36.0-Authen-SASL-2.1600" "Authen-SASL"
    rfl (by decide) rfl (by decide)

/-- C7, witness: the depth-`maxdepth + 1` frame is the identity on a
concrete run, and the bound applied to a concrete emitted edge and a
concrete csv row. -/
theorem c7_depth_bound_witness :
    graphGoF diamondCfg 11 fA diamondCfg.maxdepth initState = initState
    ∧ (1, eAB) ∈ (graphGoF diamondCfg 11 fA 0 initState).edges
    ∧ (1 : Nat) ≤ diamondCfg.maxdepth
    ∧ (1, e0) ∈ (graphGoF tabularCfg 6 f0 0 initState).csv
    ∧ (1 : Nat) ≤ tabularCfg.maxdepth := by
  refine ⟨c7_depth_bound.1 diamondCfg 11 fA initState, by decide, ?_, by decide, ?_⟩
  · exact c7_depth_bound.2.1 diamondCfg 11 fA (1, eAB) (by decide)
  · exact c7_depth_bound.2.2 tabularCfg 6 f0 (1, e0) (by decide)
